import Mathlib

/-!
Verification development for the EDAnalyzer repository.

The repository ships a React frontend (client/src/App.tsx, client/vite.config.ts)
and, per its readme, a Python backend (server/app.py, server/eda.py) that is not
part of the checked-out sources.  The frontend functions below
(`simulateProgress`, `classifyPlot` / `availablePlots`, `formatFileSize`) are
translated directly from the TypeScript sources.  The backend analysis pipeline
is modelled from the specification, as noted on each definition.
-/

namespace EDA

/-- Modelled from the spec: cell values of a tabular dataset
(numeric, categorical/text, or missing-marker).  The backend (server/eda.py)
is not in the sources; the data model follows spec section 3. -/
inductive Cell where
  | num (q : ℚ)
  | str (s : String)
  | missing
deriving DecidableEq

abbrev Row := List Cell

/-- Modelled from the spec: a dataset is an ordered sequence of named columns
with uniform row length; represented row-wise with a header of column names. -/
structure Dataset where
  header : List String
  rows : List Row
deriving DecidableEq

/-- Cells of column `j`, read off every row (missing when a row is short). -/
def colCells (d : Dataset) (j : ℕ) : List Cell :=
  d.rows.map (fun r => r.getD j Cell.missing)

def cellNum : Cell → Option ℚ
  | Cell.num q => some q
  | _ => none

def isStrCell : Cell → Bool
  | Cell.str _ => true
  | _ => false

def isMissingCell : Cell → Bool
  | Cell.missing => true
  | _ => false

/-- The numeric values present in column `j`. -/
def colNums (d : Dataset) (j : ℕ) : List ℚ :=
  (colCells d j).filterMap cellNum

/-- A column is numeric when no cell is textual. -/
def isNumericCol (d : Dataset) (j : ℕ) : Bool :=
  (colCells d j).all (fun c => !isStrCell c)

/-- Modelled from the spec: cleaning step 1, drop exact-duplicate rows. -/
def dedupStep (d : Dataset) : Dataset :=
  ⟨d.header, d.rows.dedup⟩

def missingCountCol (d : Dataset) (j : ℕ) : ℕ :=
  (colCells d j).countP (fun c => isMissingCell c)

/-- A column is kept when its missing-value fraction does not exceed 1/2. -/
def keepCol (d : Dataset) (j : ℕ) : Bool :=
  decide (2 * missingCountCol d j ≤ d.rows.length)

def keptIdx (d : Dataset) : List ℕ :=
  (List.range d.header.length).filter (fun j => keepCol d j)

def droppedNames (d : Dataset) : List String :=
  ((List.range d.header.length).filter (fun j => !keepCol d j)).map
    (fun j => d.header.getD j "")

/-- Modelled from the spec: cleaning step 2, drop columns whose missing-value
fraction exceeds the 0.5 threshold. -/
def dropStep (d : Dataset) : Dataset :=
  ⟨(keptIdx d).map (fun j => d.header.getD j ""),
   d.rows.map (fun r => (keptIdx d).map (fun j => r.getD j Cell.missing))⟩

def sortRats (l : List ℚ) : List ℚ :=
  l.insertionSort (fun a b => a ≤ b)

/-- Median as an order statistic of the sorted values (0 on an empty list). -/
def medianD (l : List ℚ) : ℚ :=
  (sortRats l).getD (l.length / 2) 0

def presentCells (l : List Cell) : List Cell :=
  l.filter (fun c => !isMissingCell c)

/-- Most frequent present value, or the sentinel "Unknown" when none exists. -/
def modeCell (l : List Cell) : Cell :=
  match (presentCells l).argmax (fun c => (presentCells l).count c) with
  | some c => c
  | none => Cell.str "Unknown"

def imputeCell (d : Dataset) (j : ℕ) (c : Cell) : Cell :=
  match c with
  | Cell.missing =>
      if isNumericCol d j then Cell.num (medianD (colNums d j))
      else modeCell (colCells d j)
  | c => c

/-- Rebuild every row by transforming the cell of each column in place. -/
def mapCells (d : Dataset) (f : ℕ → Cell → Cell) : Dataset :=
  ⟨d.header,
   d.rows.map (fun r =>
     (List.range d.header.length).map (fun j => f j (r.getD j Cell.missing)))⟩

/-- Modelled from the spec: cleaning step 3, impute missing values per column
(numeric: median; categorical/text: mode or the sentinel "Unknown"). -/
def imputeStep (d : Dataset) : Dataset :=
  mapCells d (imputeCell d)

def missingTotal (d : Dataset) : ℕ :=
  ((List.range d.header.length).map (fun j => missingCountCol d j)).sum

/-- First quartile, as the order statistic at index n/4 of the sorted values. -/
def q1Col (d : Dataset) (j : ℕ) : ℚ :=
  (sortRats (colNums d j)).getD ((colNums d j).length / 4) 0

/-- Third quartile, as the order statistic at index 3n/4 of the sorted values. -/
def q3Col (d : Dataset) (j : ℕ) : ℚ :=
  (sortRats (colNums d j)).getD (3 * (colNums d j).length / 4) 0

def loBound (d : Dataset) (j : ℕ) : ℚ :=
  q1Col d j - 3 / 2 * (q3Col d j - q1Col d j)

def hiBound (d : Dataset) (j : ℕ) : ℚ :=
  q3Col d j + 3 / 2 * (q3Col d j - q1Col d j)

def clampQ (lo hi q : ℚ) : ℚ := max lo (min q hi)

def capCell (d : Dataset) (j : ℕ) (c : Cell) : Cell :=
  match c with
  | Cell.num q =>
      if isNumericCol d j then Cell.num (clampQ (loBound d j) (hiBound d j) q)
      else Cell.num q
  | c => c

/-- Modelled from the spec: cleaning step 4, cap numeric outliers beyond
1.5 IQR from the quartiles to the nearest bound (rows are never dropped). -/
def capStep (d : Dataset) : Dataset :=
  mapCells d (capCell d)

def cappedCountCol (d : Dataset) (j : ℕ) : ℕ :=
  (colCells d j).countP (fun c => decide (capCell d j c ≠ c))

def cappedTotal (d : Dataset) : ℕ :=
  ((List.range d.header.length).map (fun j => cappedCountCol d j)).sum

def digitVal (c : Char) : ℕ := c.toNat - 48

def digitsVal (l : List Char) : ℕ :=
  l.foldl (fun a c => 10 * a + digitVal c) 0

/-- An unambiguous integer literal: optional minus sign then digits. -/
def parseNum (s : String) : Option ℚ :=
  match s.toList with
  | [] => none
  | c :: rest =>
    if c = Char.ofNat 45 then
      if !rest.isEmpty && rest.all Char.isDigit then some (-(digitsVal rest : ℚ)) else none
    else
      if (c :: rest).all Char.isDigit then some ((digitsVal (c :: rest) : ℚ)) else none

def coercibleCell : Cell → Bool
  | Cell.str s => (parseNum s).isSome
  | _ => true

/-- A column is coercible when it holds text and every text cell is
unambiguously numeric. -/
def coercibleCol (d : Dataset) (j : ℕ) : Bool :=
  (colCells d j).any isStrCell && (colCells d j).all coercibleCell

def coerceCell (d : Dataset) (j : ℕ) (c : Cell) : Cell :=
  if coercibleCol d j then
    match c with
    | Cell.str s => (match parseNum s with | some q => Cell.num q | none => Cell.str s)
    | c => c
  else c

/-- Modelled from the spec: cleaning step 5, convert numeric-looking text
columns to numeric where unambiguous. -/
def coerceStep (d : Dataset) : Dataset :=
  mapCells d (coerceCell d)

def coercedCount (d : Dataset) : ℕ :=
  ((List.range d.header.length).filter (fun j => coercibleCol d j)).length

/-- The pipeline through step 4 (dedup, drop, impute, cap). -/
def capStage (d : Dataset) : Dataset :=
  capStep (imputeStep (dropStep (dedupStep d)))

/-- Modelled from the spec: the Cleaning Engine, the five steps in fixed order. -/
def clean (d : Dataset) : Dataset :=
  coerceStep (capStage d)

def outcomeCount (n : ℕ) (what : String) : String :=
  if n = 0 then "none found" else toString n ++ " " ++ what

/-- Modelled from the spec: the cleaning report, one entry per step, with a
"none found" outcome whenever a step found nothing to do. -/
def cleanReport (d : Dataset) : List (String × String) :=
  [("duplicates_removed",
      outcomeCount (d.rows.length - (dedupStep d).rows.length) "duplicate rows removed"),
   ("columns_dropped",
      if droppedNames (dedupStep d) = [] then "none found"
      else "dropped: " ++ String.intercalate ", " (droppedNames (dedupStep d))),
   ("missing_values_imputed",
      outcomeCount (missingTotal (dropStep (dedupStep d))) "missing values imputed"),
   ("outliers_capped",
      outcomeCount (cappedTotal (imputeStep (dropStep (dedupStep d)))) "outlier values capped"),
   ("types_converted",
      outcomeCount (coercedCount (capStage d)) "columns converted to numeric")]

def ReportAllNoneFound (rep : List (String × String)) : Prop :=
  ∀ e ∈ rep, e.2 = "none found"

/-- Every row has exactly one cell per header column. -/
def Uniform (d : Dataset) : Prop :=
  ∀ r ∈ d.rows, r.length = d.header.length

/-- No cell of the dataset is the missing-marker. -/
def NoMissing (d : Dataset) : Prop :=
  ∀ r ∈ d.rows, ∀ c ∈ r, c ≠ Cell.missing

/-- The cell of row `i`, column `j` (missing when out of range). -/
def cellAt (d : Dataset) (i j : ℕ) : Cell :=
  (d.rows.getD i []).getD j Cell.missing

/-- Placeholder for an encoded raster image; every generated plot carries a
non-empty payload. -/
def encodedPlot : String := "iVBORw0KGgo"

def hasMissing (d : Dataset) : Bool :=
  d.rows.any (fun r => r.any isMissingCell)

def numericColCount (d : Dataset) : ℕ :=
  ((List.range d.header.length).filter (fun j => isNumericCol d j)).length

def numericColNames (d : Dataset) : List String :=
  ((List.range d.header.length).filter (fun j => isNumericCol d j)).map
    (fun j => d.header.getD j "")

def catColNames (d : Dataset) : List String :=
  ((List.range d.header.length).filter (fun j => !isNumericCol d j)).map
    (fun j => d.header.getD j "")

def maxPlotCols : ℕ := 10

/-- Modelled from the spec: the static plot battery — overview always,
missing-data pattern when the original had missingness, correlation when at
least two numeric columns exist, then bounded per-column plots. -/
def staticPlots (orig cleaned : Dataset) : List (String × String) :=
  [("data_overview", encodedPlot)]
    ++ (if hasMissing orig then [("missing_data", encodedPlot)] else [])
    ++ (if 2 ≤ numericColCount cleaned then [("correlation", encodedPlot)] else [])
    ++ ((numericColNames cleaned).take maxPlotCols).map (fun n => ("dist_" ++ n, encodedPlot))
    ++ ((catColNames cleaned).take maxPlotCols).map (fun n => ("cat_" ++ n, encodedPlot))

structure PlotRecommendation where
  plot_type : String
  columns : List String
  title : String
  description : String
  priority : String
deriving DecidableEq

structure AIBundle where
  key_insights_to_explore : List String
  suggested_groupings : List String
  recommended_plots : List PlotRecommendation
deriving DecidableEq

def emptyAIBundle : AIBundle := ⟨[], [], []⟩

def knownPlotTypes : List String :=
  ["histogram", "bar", "scatter", "box", "heatmap", "line", "pie"]

/-- Modelled from the spec: an AI recommendation is valid when its plot type is
known and its columns exist in the cleaned dataset. -/
def validRec (cleaned : Dataset) (r : PlotRecommendation) : Bool :=
  knownPlotTypes.contains r.plot_type
    && r.columns.all (fun c => cleaned.header.contains c)

def validateBundle (cleaned : Dataset) (b : AIBundle) : AIBundle :=
  ⟨b.key_insights_to_explore, b.suggested_groupings,
   b.recommended_plots.filter (fun r => validRec cleaned r)⟩

/-- JavaScript `String.prototype.startsWith`, on the character data. -/
def strStartsWith (s p : String) : Bool :=
  p.data.isPrefixOf s.data

/-- Drop the first `n` characters (the residue of replacing a known prefix). -/
def strDrop (s : String) (n : ℕ) : String :=
  String.mk (s.data.drop n)

def staticReservedKey (k : String) : Bool :=
  k = "data_overview" || k = "missing_data" || k = "correlation"
    || strStartsWith k "dist_" || strStartsWith k "cat_"

/-- Modelled from the spec: key-collision avoidance of AI-assigned plot keys
against the static plot key namespace (rename on collision). -/
def sanitizeAIKey (k : String) : String :=
  if staticReservedKey k then "ai_" ++ k else k

def aiPlots (cleaned : Dataset) (b : AIBundle) : List (String × String) :=
  (validateBundle cleaned b).recommended_plots.map
    (fun r => (sanitizeAIKey r.title, encodedPlot))

structure AnalysisResult where
  original_shape : ℕ × ℕ
  cleaned_shape : ℕ × ℕ
  cleaning_report : List (String × String)
  plots : List (String × String)
  ai_insights : AIBundle
  ai_analysis_used : Bool
  cleaning_ai_used : Bool
  visualization_ai_used : Bool
  message : String
deriving DecidableEq

inductive AnalyzeError where
  | ingestionError (msg : String)
  | emptyDatasetError (msg : String)
deriving DecidableEq

/-- The successful AnalysisResult assembled for dataset `d` and AI outcome `ai`. -/
def analyzeResult (d : Dataset) (ai : Option AIBundle) : AnalysisResult :=
  { original_shape := (d.rows.length, d.header.length)
    cleaned_shape := ((clean d).rows.length, (clean d).header.length)
    cleaning_report := cleanReport d
    plots := staticPlots d (clean d)
      ++ (match ai with | none => [] | some b => aiPlots (clean d) b)
    ai_insights := match ai with
      | none => emptyAIBundle
      | some b => validateBundle (clean d) b
    ai_analysis_used := ai.isSome
    cleaning_ai_used := ai.isSome
    visualization_ai_used := ai.isSome
    message := "Analysis completed successfully" }

/-- Modelled from the spec: the analyze operation.  `parsed` is the ingestion
outcome (none for an unreadable/corrupt file); `ai` is the best-effort AI
backend outcome (none on timeout, malformed response, or backend error). -/
def analyze (parsed : Option Dataset) (ai : Option AIBundle) :
    Except AnalyzeError AnalysisResult :=
  match parsed with
  | none => Except.error (AnalyzeError.ingestionError "unreadable or corrupt file")
  | some d =>
    if d.rows.length = 0 ∨ d.header.length = 0 then
      Except.error (AnalyzeError.emptyDatasetError "empty dataset: zero rows or zero columns")
    else
      Except.ok (analyzeResult d ai)

/-- From client/src/App.tsx: the per-tick base increment of the simulated
progress bar, derived from the file size alone. -/
def baseIncrement (size : ℚ) : ℚ :=
  let sizeMB := size / (1024 * 1024)
  let duration := sizeMB / (1 / 10) * 1000
  let totalSteps := duration / 200
  100 / totalSteps

/-- From client/src/App.tsx: the random factor 1 + (r - 0.5) * 0.6. -/
def randomFactor (r : ℚ) : ℚ := 1 + (r - 1 / 2) * (3 / 5)

/-- From client/src/App.tsx `simulateProgress`: the progress value and the
resolved flag after `n` timer ticks, with `rand n` the draw of tick `n`. -/
def simulateProgress (size : ℚ) (rand : ℕ → ℚ) : ℕ → ℚ × Bool
  | 0 => (0, false)
  | Nat.succ n =>
    let s := simulateProgress size rand n
    if s.2 then s
    else if 100 ≤ s.1 then (100, true)
    else (min (s.1 + baseIncrement size * randomFactor (rand n)) 100, false)

/-- The observable outcome of `handleSubmit` in client/src/App.tsx: the locally
simulated progress trace plus the backend response stored for the results view. -/
structure SubmitView where
  progress : ℕ → ℚ
  resolved : ℕ → Bool
  shownResults : Except AnalyzeError AnalysisResult

/-- From client/src/App.tsx `handleSubmit`: progress is simulated locally from
the selected file size and the random draws; the backend response is only
stored for rendering. -/
def handleSubmitModel (fileSize : ℚ) (rand : ℕ → ℚ)
    (backend : Except AnalyzeError AnalysisResult) : SubmitView :=
  { progress := fun n => (simulateProgress fileSize rand n).1
    resolved := fun n => (simulateProgress fileSize rand n).2
    shownResults := backend }

def isWordChar (c : Char) : Bool := c.isAlphanum || c = Char.ofNat 95

/-- The /\b\w/g capitalisation of JavaScript: uppercase every word character
that follows a non-word character or the start of the string. -/
def capWordStarts : Bool → List Char → List Char
  | _, [] => []
  | prevW, c :: rest =>
      (if !prevW && isWordChar c then c.toUpper else c) :: capWordStarts (isWordChar c) rest

/-- JavaScript replace of the first underscore by a space. -/
def replaceFirstUnderscore : List Char → List Char
  | [] => []
  | c :: rest =>
      if c = Char.ofNat 95 then Char.ofNat 32 :: rest
      else c :: replaceFirstUnderscore rest

def titleCaseJS (s : String) : String :=
  List.asString (capWordStarts false (replaceFirstUnderscore s.toList))

/-- From client/src/App.tsx `availablePlots`: title and description for one
plot key, branch for branch. -/
def classifyPlot (key : String) : String × String :=
  if key = "data_overview" then ("Data Overview", "Original vs cleaned data comparison")
  else if key = "missing_data" then ("Missing Data Analysis", "Pattern of missing values")
  else if strStartsWith key "correlation" then
    ("Correlation Analysis", "Relationships between variables")
  else if strStartsWith key "dist_" then
    ("Distribution: " ++ strDrop key 5, "Distribution analysis of " ++ strDrop key 5)
  else if strStartsWith key "cat_" then
    ("Categories: " ++ strDrop key 4, "Category analysis of " ++ strDrop key 4)
  else if strStartsWith key "comparison_" then ("Data Comparison", "Comparative analysis")
  else (titleCaseJS key, "AI-generated visualization")

/-- From client/src/App.tsx: `Object.keys(plots).map(...)`, one entry
(key, title, description) per key of the plots mapping. -/
def availablePlots (plotKeys : List String) : List (String × String × String) :=
  plotKeys.map (fun k => (k, classifyPlot k))

def sizesUnits : List String := ["Bytes", "KB", "MB", "GB"]

/-- floor of the base-1024 logarithm of a positive rational. -/
def floorLog1024 (q : ℚ) : ℤ :=
  if 1 ≤ q then (Nat.log 1024 (Int.toNat ⌊q⌋) : ℤ)
  else -(Nat.clog 1024 (Int.toNat ⌈q⁻¹⌉) : ℤ)

/-- toFixed(2) rounding. -/
def roundTo2 (q : ℚ) : ℚ := (⌊q * 100 + 1 / 2⌋ : ℤ) / 100

/-- From src/unnamed/part_000 `formatFileSize`: the displayed number and the
unit looked up at index floor(log1024 bytes) of the sizes array (none models
the out-of-bounds JavaScript `undefined`). -/
def formatFileSize (bytes : ℚ) : ℚ × Option String :=
  if bytes = 0 then (0, some "Bytes")
  else
    (roundTo2 (bytes / (1024 : ℚ) ^ floorLog1024 bytes),
     if floorLog1024 bytes < 0 then none
     else sizesUnits[Int.toNat (floorLog1024 bytes)]?)

/-- A single numeric column on which outlier capping creates a duplicate pair:
quartiles 49 and 53 give bounds 43 and 59, so 0 and 1 are both capped to 43. -/
def capDupDataset : Dataset :=
  ⟨["x"],
   [[Cell.num 0], [Cell.num 1], [Cell.num 49], [Cell.num 50],
    [Cell.num 51], [Cell.num 52], [Cell.num 53], [Cell.num 100]]⟩

/-- A two-row numeric dataset on which every cleaning step finds nothing. -/
def simpleDataset : Dataset :=
  ⟨["x"], [[Cell.num 0], [Cell.num 10]]⟩

/-!  ## General list helpers -/

theorem list_map_eq_self_iff {α : Type} {f : α → α} {l : List α} :
    l.map f = l ↔ ∀ a ∈ l, f a = a := by
  induction l with
  | nil => simp
  | cons a l ih => simp [ih]

theorem getD_map_range {α : Type} (n j : ℕ) (f : ℕ → α) (dflt : α) (hj : j < n) :
    ((List.range n).map f).getD j dflt = f j := by
  rw [List.getD_eq_getElem?_getD, List.getElem?_map, List.getElem?_range hj]
  rfl

theorem map_getD_range {α : Type} (l : List α) (dflt : α) :
    (List.range l.length).map (fun j => l.getD j dflt) = l := by
  apply List.ext_getElem
  · simp
  · intro i h1 h2
    simp only [List.getElem_map, List.getElem_range]
    rw [List.getD_eq_getElem l dflt h2]

/-!  ## Structural lemmas about `mapCells` and the cleaning steps -/

theorem mapCells_header (d : Dataset) (f : ℕ → Cell → Cell) :
    (mapCells d f).header = d.header := rfl

theorem mapCells_rows_length (d : Dataset) (f : ℕ → Cell → Cell) :
    (mapCells d f).rows.length = d.rows.length := by
  simp [mapCells]

theorem mapCells_uniform (d : Dataset) (f : ℕ → Cell → Cell) :
    Uniform (mapCells d f) := by
  intro r hr
  simp only [mapCells, List.mem_map] at hr
  obtain ⟨r0, _, rfl⟩ := hr
  simp [mapCells]

theorem colCells_mapCells (d : Dataset) (f : ℕ → Cell → Cell) {j : ℕ}
    (hj : j < d.header.length) :
    colCells (mapCells d f) j = (colCells d j).map (f j) := by
  simp only [colCells, mapCells, List.map_map]
  apply List.map_congr_left
  intro r _
  exact getD_map_range _ _ _ _ hj

theorem mapCells_eq_self {d : Dataset} {f : ℕ → Cell → Cell}
    (hu : Uniform d)
    (h : ∀ j < d.header.length, ∀ c ∈ colCells d j, f j c = c) :
    mapCells d f = d := by
  have hrows : d.rows.map
      (fun r => (List.range d.header.length).map (fun j => f j (r.getD j Cell.missing)))
      = d.rows := by
    rw [list_map_eq_self_iff]
    intro r hr
    have hlen : r.length = d.header.length := hu r hr
    apply List.ext_getElem
    · simp [hlen]
    · intro i h1 h2
      simp only [List.getElem_map, List.getElem_range]
      have hi : i < d.header.length := by simpa using h1
      have hmem : r.getD i Cell.missing ∈ colCells d i :=
        List.mem_map.mpr ⟨r, hr, rfl⟩
      rw [h i hi _ hmem, List.getD_eq_getElem r Cell.missing h2]
  show Dataset.mk d.header _ = d
  rw [hrows]

theorem cells_fixed_of_mapCells_eq {d : Dataset} {f : ℕ → Cell → Cell}
    (h : mapCells d f = d) :
    ∀ j < d.header.length, ∀ c ∈ colCells d j, f j c = c := by
  intro j hj c hc
  have hcol : (colCells d j).map (f j) = colCells d j := by
    conv_lhs => rw [← colCells_mapCells d f hj]
    rw [h]
  exact list_map_eq_self_iff.mp hcol c hc

/-!  ## Sorting, quartiles and clamping -/

theorem clampQ_monotone (lo hi : ℚ) : Monotone (clampQ lo hi) := by
  intro a b hab
  exact max_le_max le_rfl (min_le_min hab le_rfl)

theorem clampQ_of_mem {lo hi q : ℚ} (h1 : lo ≤ q) (h2 : q ≤ hi) :
    clampQ lo hi q = q := by
  rw [clampQ, min_eq_left h2, max_eq_right h1]

theorem le_clampQ (lo hi q : ℚ) : lo ≤ clampQ lo hi q := le_max_left _ _

theorem clampQ_le {lo hi : ℚ} (q : ℚ) (h : lo ≤ hi) : clampQ lo hi q ≤ hi :=
  max_le h (min_le_right _ _)

theorem clampQ_idem {lo hi : ℚ} (q : ℚ) (h : lo ≤ hi) :
    clampQ lo hi (clampQ lo hi q) = clampQ lo hi q :=
  clampQ_of_mem (le_clampQ lo hi q) (clampQ_le q h)

theorem length_sortRats (l : List ℚ) : (sortRats l).length = l.length := by
  simp [sortRats]

theorem sorted_sortRats (l : List ℚ) :
    List.Sorted (fun a b : ℚ => a ≤ b) (sortRats l) :=
  List.sorted_insertionSort _ l

theorem sortRats_map_monotone (f : ℚ → ℚ) (hf : Monotone f) (l : List ℚ) :
    sortRats (l.map f) = (sortRats l).map f := by
  have hperm : List.Perm (sortRats (l.map f)) ((sortRats l).map f) :=
    (List.perm_insertionSort _ _).trans ((List.perm_insertionSort _ l).symm.map f)
  have hs1 : List.Sorted (fun a b : ℚ => a ≤ b) (sortRats (l.map f)) :=
    List.sorted_insertionSort _ _
  have hs2 : List.Sorted (fun a b : ℚ => a ≤ b) ((sortRats l).map f) :=
    List.Pairwise.map f (fun a b hab => hf hab) (List.sorted_insertionSort _ l)
  exact List.eq_of_perm_of_sorted hperm hs1 hs2

theorem sorted_getD_mono {l : List ℚ} (h : List.Sorted (fun a b : ℚ => a ≤ b) l)
    {i j : ℕ} (hij : i ≤ j) (hj : j < l.length) :
    l.getD i 0 ≤ l.getD j 0 := by
  have hi : i < l.length := lt_of_le_of_lt hij hj
  rw [List.getD_eq_getElem l 0 hi, List.getD_eq_getElem l 0 hj]
  exact h.rel_get_of_le (a := ⟨i, hi⟩) (b := ⟨j, hj⟩) hij

theorem getD_map_lt {α β : Type} (f : α → β) (l : List α) (dfa : α) (dfb : β)
    {i : ℕ} (hi : i < l.length) :
    (l.map f).getD i dfb = f (l.getD i dfa) := by
  rw [List.getD_eq_getElem _ _ (by simpa using hi), List.getElem_map,
    List.getD_eq_getElem _ _ hi]

theorem three_quarters_lt {n : ℕ} (hn : 0 < n) : 3 * n / 4 < n :=
  (Nat.div_lt_iff_lt_mul (by norm_num)).mpr (by omega)

theorem q1_le_q3 (d : Dataset) (j : ℕ) : q1Col d j ≤ q3Col d j := by
  rcases Nat.eq_zero_or_pos (colNums d j).length with h | h
  · rw [List.length_eq_zero] at h
    simp [q1Col, q3Col, h, sortRats]
  · exact sorted_getD_mono (sorted_sortRats _)
      (Nat.div_le_div_right (by omega)) (by rw [length_sortRats]; exact three_quarters_lt h)

theorem loBound_le_q1 (d : Dataset) (j : ℕ) : loBound d j ≤ q1Col d j := by
  have := q1_le_q3 d j
  rw [loBound]; linarith

theorem q3_le_hiBound (d : Dataset) (j : ℕ) : q3Col d j ≤ hiBound d j := by
  have := q1_le_q3 d j
  rw [hiBound]; linarith

theorem loBound_le_hiBound (d : Dataset) (j : ℕ) : loBound d j ≤ hiBound d j := by
  have h1 := loBound_le_q1 d j
  have h2 := q3_le_hiBound d j
  have h3 := q1_le_q3 d j
  linarith

/-!  ## The outlier-capping step is idempotent -/

theorem capCell_id_of_not_numeric {d : Dataset} {j : ℕ}
    (h : isNumericCol d j = false) (c : Cell) : capCell d j c = c := by
  cases c with
  | num q => simp [capCell, h]
  | str s => rfl
  | missing => rfl

theorem isStrCell_capCell (d : Dataset) (j : ℕ) (c : Cell) :
    isStrCell (capCell d j c) = isStrCell c := by
  cases c with
  | num q => rw [capCell]; split <;> rfl
  | str s => rfl
  | missing => rfl

theorem isNumericCol_capStep (d : Dataset) {j : ℕ} (hj : j < d.header.length) :
    isNumericCol (capStep d) j = isNumericCol d j := by
  rw [isNumericCol, capStep, colCells_mapCells d _ hj, List.all_map, isNumericCol]
  have : ((fun c => !isStrCell c) ∘ capCell d j) = fun c => !isStrCell c :=
    funext fun c => by simp [Function.comp, isStrCell_capCell]
  rw [this]

theorem colCells_capStep_of_not_numeric (d : Dataset) {j : ℕ}
    (hj : j < d.header.length) (h : isNumericCol d j = false) :
    colCells (capStep d) j = colCells d j := by
  rw [capStep, colCells_mapCells d _ hj]
  exact list_map_eq_self_iff.mpr (fun c _ => capCell_id_of_not_numeric h c)

theorem colNums_capStep_of_numeric (d : Dataset) {j : ℕ}
    (hj : j < d.header.length) (h : isNumericCol d j = true) :
    colNums (capStep d) j
      = (colNums d j).map (clampQ (loBound d j) (hiBound d j)) := by
  rw [colNums, capStep, colCells_mapCells d _ hj, List.filterMap_map, colNums,
    List.map_filterMap]
  have : (cellNum ∘ capCell d j)
      = fun c => (cellNum c).map (clampQ (loBound d j) (hiBound d j)) := by
    funext c
    cases c with
    | num q => simp [Function.comp, capCell, cellNum, h]
    | str s => rfl
    | missing => rfl
  rw [this]

theorem quartiles_capStep (d : Dataset) {j : ℕ} (hj : j < d.header.length) :
    q1Col (capStep d) j = q1Col d j ∧ q3Col (capStep d) j = q3Col d j := by
  rcases Bool.eq_false_or_eq_true (isNumericCol d j) with h | h
  case inr =>
    have hc : colNums (capStep d) j = colNums d j := by
      rw [colNums, colCells_capStep_of_not_numeric d hj h, ← colNums]
    constructor
    · rw [q1Col, q1Col, hc]
    · rw [q3Col, q3Col, hc]
  case inl =>
    have hc := colNums_capStep_of_numeric d hj h
    rcases Nat.eq_zero_or_pos (colNums d j).length with h0 | h0
    · rw [List.length_eq_zero] at h0
      rw [h0] at hc
      simp only [List.map_nil] at hc
      constructor
      · rw [q1Col, q1Col, hc, h0]
      · rw [q3Col, q3Col, hc, h0]
    · have hsort := sortRats_map_monotone _ (clampQ_monotone (loBound d j) (hiBound d j))
        (colNums d j)
      have hq1lt : (colNums d j).length / 4 < (sortRats (colNums d j)).length := by
        rw [length_sortRats]
        exact lt_of_le_of_lt (Nat.div_le_div_right (by omega)) (three_quarters_lt h0)
      have hq3lt : 3 * (colNums d j).length / 4 < (sortRats (colNums d j)).length := by
        rw [length_sortRats]; exact three_quarters_lt h0
      have hq1 : q1Col (capStep d) j
          = clampQ (loBound d j) (hiBound d j) (q1Col d j) := by
        rw [q1Col, hc, List.length_map, hsort, getD_map_lt _ _ 0 0 hq1lt, q1Col]
      have hq3 : q3Col (capStep d) j
          = clampQ (loBound d j) (hiBound d j) (q3Col d j) := by
        rw [q3Col, hc, List.length_map, hsort, getD_map_lt _ _ 0 0 hq3lt, q3Col]
      constructor
      · rw [hq1]
        exact clampQ_of_mem (loBound_le_q1 d j)
          (le_trans (q1_le_q3 d j) (q3_le_hiBound d j))
      · rw [hq3]
        exact clampQ_of_mem (le_trans (loBound_le_q1 d j) (q1_le_q3 d j))
          (q3_le_hiBound d j)

theorem bounds_capStep (d : Dataset) {j : ℕ} (hj : j < d.header.length) :
    loBound (capStep d) j = loBound d j ∧ hiBound (capStep d) j = hiBound d j := by
  obtain ⟨h1, h3⟩ := quartiles_capStep d hj
  constructor
  · rw [loBound, loBound, h1, h3]
  · rw [hiBound, hiBound, h1, h3]

theorem capCell_capStep_fixed (d : Dataset) {j : ℕ} (hj : j < d.header.length) :
    ∀ c ∈ colCells (capStep d) j, capCell (capStep d) j c = c := by
  intro c hc
  rcases Bool.eq_false_or_eq_true (isNumericCol d j) with h | h
  case inr =>
    have h2 : isNumericCol (capStep d) j = false := by
      rw [isNumericCol_capStep d hj, h]
    exact capCell_id_of_not_numeric h2 c
  case inl =>
    have h2 : isNumericCol (capStep d) j = true := by
      rw [isNumericCol_capStep d hj, h]
    rw [capStep, colCells_mapCells d _ hj] at hc
    obtain ⟨c0, hc0, rfl⟩ := List.mem_map.mp hc
    cases c0 with
    | num q =>
        obtain ⟨hlo, hhi⟩ := bounds_capStep d hj
        rw [capCell, if_pos h, capCell, if_pos h2, hlo, hhi,
          clampQ_idem q (loBound_le_hiBound d j)]
    | str s =>
        exfalso
        have := (List.all_eq_true.mp h) (Cell.str s) hc0
        simp [isStrCell] at this
    | missing => rfl

theorem capStep_idem (d : Dataset) : capStep (capStep d) = capStep d :=
  mapCells_eq_self (mapCells_uniform d _)
    (fun _ hj c hc => capCell_capStep_fixed d hj c hc)

/-!  ## Fixed points of the remaining cleaning steps -/

theorem modeCell_ne_missing (l : List Cell) : modeCell l ≠ Cell.missing := by
  rw [modeCell]
  cases hm : (presentCells l).argmax (fun c => (presentCells l).count c) with
  | none => simp
  | some c =>
      have hmem : c ∈ presentCells l := List.argmax_mem hm
      have := (List.mem_filter.mp hmem).2
      cases c <;> simp_all [isMissingCell]

theorem mem_colCells_ne_missing {d : Dataset} (hu : Uniform d) (hm : NoMissing d)
    {j : ℕ} (hj : j < d.header.length) :
    ∀ c ∈ colCells d j, c ≠ Cell.missing := by
  intro c hc
  obtain ⟨r, hr, rfl⟩ := List.mem_map.mp hc
  have hlen : j < r.length := by rw [hu r hr]; exact hj
  rw [List.getD_eq_getElem r Cell.missing hlen]
  exact hm r hr _ (List.getElem_mem hlen)

theorem missingCountCol_zero {d : Dataset} (hu : Uniform d) (hm : NoMissing d)
    {j : ℕ} (hj : j < d.header.length) : missingCountCol d j = 0 := by
  rw [missingCountCol]
  apply List.countP_eq_zero.mpr
  intro c hc
  have := mem_colCells_ne_missing hu hm hj c hc
  cases c <;> simp_all [isMissingCell]

theorem keepCol_of_noMissing {d : Dataset} (hu : Uniform d) (hm : NoMissing d)
    {j : ℕ} (hj : j < d.header.length) : keepCol d j = true := by
  rw [keepCol, missingCountCol_zero hu hm hj]
  simp

theorem dropStep_eq_self {d : Dataset} (hu : Uniform d) (hm : NoMissing d) :
    dropStep d = d := by
  have hkeep : keptIdx d = List.range d.header.length := by
    rw [keptIdx]
    apply List.filter_eq_self.mpr
    intro j hjmem
    exact keepCol_of_noMissing hu hm (List.mem_range.mp hjmem)
  rw [dropStep, hkeep]
  have hrow : d.rows.map
      (fun r => (List.range d.header.length).map (fun j => r.getD j Cell.missing))
      = d.rows := by
    rw [list_map_eq_self_iff]
    intro r hr
    rw [← hu r hr]
    exact map_getD_range r Cell.missing
  rw [hrow, map_getD_range d.header ""]

theorem imputeStep_eq_self {d : Dataset} (hu : Uniform d) (hm : NoMissing d) :
    imputeStep d = d := by
  apply mapCells_eq_self hu
  intro j hj c hc
  have := mem_colCells_ne_missing hu hm hj c hc
  cases c with
  | num q => rfl
  | str s => rfl
  | missing => exact absurd rfl this

theorem dedupStep_eq_self {d : Dataset} (h : d.rows.Nodup) : dedupStep d = d := by
  rw [dedupStep, List.dedup_eq_self.mpr h]

theorem noMissing_imputeStep (d : Dataset) : NoMissing (imputeStep d) := by
  intro r hr c hc
  rw [imputeStep, mapCells] at hr
  simp only [List.mem_map] at hr
  obtain ⟨r0, _, rfl⟩ := hr
  simp only [List.mem_map, List.mem_range] at hc
  obtain ⟨j, _, rfl⟩ := hc
  cases hx : r0.getD j Cell.missing with
  | num q => simp [imputeCell]
  | str s => simp [imputeCell]
  | missing =>
      show (if isNumericCol d j then Cell.num (medianD (colNums d j))
        else modeCell (colCells d j)) ≠ Cell.missing
      split
      · simp
      · exact modeCell_ne_missing _

theorem capCell_ne_missing (d : Dataset) (j : ℕ) {c : Cell}
    (hc : c ≠ Cell.missing) : capCell d j c ≠ Cell.missing := by
  cases c with
  | num q => rw [capCell]; split <;> simp
  | str s => simp [capCell]
  | missing => exact absurd rfl hc

theorem noMissing_capStep {d : Dataset} (hu : Uniform d) (hm : NoMissing d) :
    NoMissing (capStep d) := by
  intro r hr c hc
  rw [capStep, mapCells] at hr
  simp only [List.mem_map] at hr
  obtain ⟨r0, hr0, rfl⟩ := hr
  simp only [List.mem_map, List.mem_range] at hc
  obtain ⟨j, hj, rfl⟩ := hc
  apply capCell_ne_missing
  have hlen : j < r0.length := by rw [hu r0 hr0]; exact hj
  rw [List.getD_eq_getElem r0 Cell.missing hlen]
  exact hm r0 hr0 _ (List.getElem_mem hlen)

theorem uniform_clean (d : Dataset) : Uniform (clean d) :=
  mapCells_uniform _ _

theorem noMissing_capStage (d : Dataset) : NoMissing (capStage d) :=
  noMissing_capStep (mapCells_uniform _ _) (noMissing_imputeStep _)

theorem capStep_capStage (d : Dataset) : capStep (capStage d) = capStage d :=
  capStep_idem _

theorem capStage_uniform (d : Dataset) : Uniform (capStage d) :=
  mapCells_uniform _ _

/-!  ## Shape bounds for the cleaning pipeline -/

theorem dropStep_rows_length (d : Dataset) :
    (dropStep d).rows.length = d.rows.length := by
  simp [dropStep]

theorem dropStep_header_length_le (d : Dataset) :
    (dropStep d).header.length ≤ d.header.length := by
  simp only [dropStep, List.length_map, keptIdx]
  exact le_trans (List.length_filter_le _ _) (by simp)

theorem clean_rows_le (d : Dataset) :
    (clean d).rows.length ≤ d.rows.length := by
  rw [clean, capStage, capStep, imputeStep]
  rw [show coerceStep = fun x => mapCells x (coerceCell x) from rfl]
  simp only [mapCells_rows_length, dropStep_rows_length, dedupStep]
  exact (List.dedup_sublist d.rows).length_le

theorem clean_header_le (d : Dataset) :
    (clean d).header.length ≤ d.header.length := by
  rw [clean, capStage, capStep, imputeStep]
  rw [show coerceStep = fun x => mapCells x (coerceCell x) from rfl]
  simp only [mapCells_header]
  exact dropStep_header_length_le _

/-!  ## Claims C1 to C3 -/

/-- C1: for every valid non-empty input dataset, analyze returns an
AnalysisResult whose cleaned shape is bounded by the original shape, both in
row count and in column count. -/
theorem analyze_shape_invariant (d : Dataset) (ai : Option AIBundle)
    (hr : d.rows.length ≠ 0) (hc : d.header.length ≠ 0) :
    ∃ r, analyze (some d) ai = Except.ok r ∧
      r.cleaned_shape.1 ≤ r.original_shape.1 ∧
      r.cleaned_shape.2 ≤ r.original_shape.2 := by
  have hcond : ¬ (d.rows.length = 0 ∨ d.header.length = 0) := by
    simp [hr, hc]
  refine ⟨analyzeResult d ai, ?_, clean_rows_le d, clean_header_le d⟩
  rw [analyze]
  exact if_neg hcond

theorem analyze_shape_invariant_witness :
    simpleDataset.rows.length ≠ 0 ∧ simpleDataset.header.length ≠ 0 ∧
    ∃ r, analyze (some simpleDataset) none = Except.ok r ∧
      r.cleaned_shape.1 ≤ r.original_shape.1 ∧
      r.cleaned_shape.2 ≤ r.original_shape.2 :=
  ⟨by decide, by decide,
   analyze_shape_invariant simpleDataset none (by decide) (by decide)⟩

/-- C2: when the AI backend call fails (modelled as `none`), the pipeline still
completes with an ok AnalysisResult whose AI flags are false, whose AI insight
bundle is empty, and whose cleaning report and plots are non-empty. -/
theorem ai_unavailable_graceful (d : Dataset)
    (hr : d.rows.length ≠ 0) (hc : d.header.length ≠ 0) :
    ∃ r, analyze (some d) none = Except.ok r ∧
      r.ai_analysis_used = false ∧ r.cleaning_ai_used = false ∧
      r.visualization_ai_used = false ∧ r.ai_insights = emptyAIBundle ∧
      r.cleaning_report ≠ [] ∧ r.plots ≠ [] := by
  have hcond : ¬ (d.rows.length = 0 ∨ d.header.length = 0) := by
    simp [hr, hc]
  refine ⟨analyzeResult d none, ?_, rfl, rfl, rfl, rfl, ?_, ?_⟩
  · rw [analyze]
    exact if_neg hcond
  · simp [analyzeResult, cleanReport]
  · simp [analyzeResult, staticPlots]

theorem ai_unavailable_graceful_witness :
    simpleDataset.rows.length ≠ 0 ∧ simpleDataset.header.length ≠ 0 ∧
    ∃ r, analyze (some simpleDataset) none = Except.ok r ∧
      r.ai_analysis_used = false ∧ r.cleaning_ai_used = false ∧
      r.visualization_ai_used = false ∧ r.ai_insights = emptyAIBundle ∧
      r.cleaning_report ≠ [] ∧ r.plots ≠ [] :=
  ⟨by decide, by decide,
   ai_unavailable_graceful simpleDataset (by decide) (by decide)⟩

set_option maxHeartbeats 2000000 in
/-- C3 (amended): the Cleaning Engine is idempotent on a dataset whose cleaned
output has no duplicate rows and on which the type-coercion step converted
nothing: a second run returns the dataset unchanged and produces a report in
which every entry states "none found".  (Unconditional idempotence fails: see
the counterexample, where outlier capping creates a new duplicate row pair.) -/
theorem cleaning_engine_idempotent_amended (d : Dataset)
    (h1 : (clean d).rows.Nodup)
    (h2 : coerceStep (capStage d) = capStage d) :
    clean (clean d) = clean d ∧ ReportAllNoneFound (cleanReport (clean d)) := by
  have hcd : clean d = capStage d := by rw [clean, h2]
  have hu : Uniform (capStage d) := capStage_uniform d
  have hm : NoMissing (capStage d) := noMissing_capStage d
  have hnodup : (capStage d).rows.Nodup := by rw [← hcd]; exact h1
  have hded : dedupStep (capStage d) = capStage d := dedupStep_eq_self hnodup
  have hdrop : dropStep (capStage d) = capStage d := dropStep_eq_self hu hm
  have himp : imputeStep (capStage d) = capStage d := imputeStep_eq_self hu hm
  have hcap : capStep (capStage d) = capStage d := capStep_capStage d
  have hcoe : coerceStep (capStage d) = capStage d := h2
  constructor
  · rw [hcd]
    rw [clean, capStage, hded, hdrop, himp]
    rw [show capStep (capStage d) = capStage d from hcap, hcoe]
  · rw [hcd]
    intro e he
    simp only [cleanReport, List.mem_cons, List.not_mem_nil, or_false] at he
    rcases he with rfl | rfl | rfl | rfl | rfl
    · show outcomeCount ((capStage d).rows.length
        - (dedupStep (capStage d)).rows.length) _ = _
      rw [hded, Nat.sub_self]
      rfl
    · show (if droppedNames (dedupStep (capStage d)) = [] then _ else _) = _
      have hfil : (List.range (capStage d).header.length).filter
          (fun j => !keepCol (capStage d) j) = [] := by
        apply List.filter_eq_nil_iff.mpr
        intro j hj
        rw [keepCol_of_noMissing hu hm (List.mem_range.mp hj)]
        simp
      rw [hded, droppedNames, hfil]
      rfl
    · show outcomeCount (missingTotal (dropStep (dedupStep (capStage d)))) _ = _
      have hmt : missingTotal (capStage d) = 0 :=
        List.sum_eq_zero (fun x hx => by
          obtain ⟨j, hj, rfl⟩ := List.mem_map.mp hx
          exact missingCountCol_zero hu hm (List.mem_range.mp hj))
      rw [hded, hdrop, hmt]
      rfl
    · show outcomeCount (cappedTotal (imputeStep (dropStep
        (dedupStep (capStage d))))) _ = _
      have hfix := cells_fixed_of_mapCells_eq (d := capStage d)
        (f := capCell (capStage d)) hcap
      have hct : cappedTotal (capStage d) = 0 :=
        List.sum_eq_zero (fun x hx => by
          obtain ⟨j, hj, rfl⟩ := List.mem_map.mp hx
          rw [cappedCountCol]
          apply List.countP_eq_zero.mpr
          intro c hc
          have hcfix := hfix j (List.mem_range.mp hj) c hc
          simp [hcfix])
      rw [hded, hdrop, himp, hct]
      rfl
    · show outcomeCount (coercedCount (capStage (capStage d))) _ = _
      have hstage : capStage (capStage d) = capStage d := by
        rw [capStage, hded, hdrop, himp]
        exact hcap
      have hfixc := cells_fixed_of_mapCells_eq (d := capStage d)
        (f := coerceCell (capStage d)) hcoe
      have hnil : (List.range (capStage d).header.length).filter
          (fun j => coercibleCol (capStage d) j) = [] := by
        apply List.filter_eq_nil_iff.mpr
        intro j hj hcoer
        have hsplitc := hcoer
        rw [coercibleCol, Bool.and_eq_true] at hsplitc
        obtain ⟨hany, hall⟩ := hsplitc
        obtain ⟨c, hcmem, hstr⟩ := List.any_eq_true.mp hany
        cases c with
        | str s =>
            have hcoeall : (parseNum s).isSome = true :=
              List.all_eq_true.mp hall _ hcmem
            obtain ⟨q, hq⟩ := Option.isSome_iff_exists.mp hcoeall
            have hfixed := hfixc j (List.mem_range.mp hj) _ hcmem
            rw [coerceCell, if_pos hcoer] at hfixed
            simp [hq] at hfixed
        | num q => simp [isStrCell] at hstr
        | missing => simp [isStrCell] at hstr
      rw [hstage, coercedCount, hnil]
      rfl

unseal Rat.add Rat.sub Rat.mul Rat.inv in
/-- C3 counterexample: on `capDupDataset` the capping step maps both 0 and 1 to
the lower bound 43, creating a duplicate row, so a second engine run removes a
row and the output differs. -/
theorem cleaning_engine_not_idempotent :
    clean (clean capDupDataset) ≠ clean capDupDataset := by decide

unseal Rat.add Rat.sub Rat.mul Rat.inv in
theorem cleaning_engine_idempotent_witness :
    (clean simpleDataset).rows.Nodup ∧
    (coerceStep (capStage simpleDataset) = capStage simpleDataset) ∧
    (clean (clean simpleDataset) = clean simpleDataset ∧
      ReportAllNoneFound (cleanReport (clean simpleDataset))) :=
  ⟨by decide, by decide,
   cleaning_engine_idempotent_amended simpleDataset (by decide) (by decide)⟩

/-!  ## Plot key disequalities and membership -/

theorem dist_key_ne_correlation (n : String) : ("dist_" ++ n) ≠ "correlation" := by
  intro h
  have h2 := congrArg String.data h
  rw [String.data_append] at h2
  simp at h2

theorem cat_key_ne_correlation (n : String) : ("cat_" ++ n) ≠ "correlation" := by
  intro h
  have h2 := congrArg String.data h
  rw [String.data_append] at h2
  simp at h2

theorem dist_key_ne_missing_data (n : String) : ("dist_" ++ n) ≠ "missing_data" := by
  intro h
  have h2 := congrArg String.data h
  rw [String.data_append] at h2
  simp at h2

theorem cat_key_ne_missing_data (n : String) : ("cat_" ++ n) ≠ "missing_data" := by
  intro h
  have h2 := congrArg String.data h
  rw [String.data_append] at h2
  simp at h2

theorem sanitizeAIKey_ne_correlation (k : String) :
    sanitizeAIKey k ≠ "correlation" := by
  rw [sanitizeAIKey]
  split
  · intro h
    have h2 := congrArg String.data h
    rw [String.data_append] at h2
    simp at h2
  · case isFalse hres =>
      intro h
      rw [h] at hres
      exact hres (by decide)

theorem sanitizeAIKey_ne_missing_data (k : String) :
    sanitizeAIKey k ≠ "missing_data" := by
  rw [sanitizeAIKey]
  split
  · intro h
    have h2 := congrArg String.data h
    rw [String.data_append] at h2
    simp at h2
  · case isFalse hres =>
      intro h
      rw [h] at hres
      exact hres (by decide)

theorem mem_aiPlots_keys {c : Dataset} {b : AIBundle} {k : String}
    (h : k ∈ (aiPlots c b).map Prod.fst) : ∃ t, k = sanitizeAIKey t := by
  rw [aiPlots, List.map_map] at h
  obtain ⟨r, _, hr⟩ := List.mem_map.mp h
  exact ⟨r.title, hr.symm⟩

theorem not_mem_take_map_keyed (p t es : String) (l : List String) (k : ℕ)
    (hne : ∀ n, (p ++ n) ≠ t) :
    t ∉ List.take k (l.map (Prod.fst ∘ fun n => (p ++ n, es))) := by
  intro hmem
  obtain ⟨n, _, hn⟩ := List.mem_map.mp (List.mem_of_mem_take hmem)
  exact hne n hn

theorem correlation_mem_staticPlots (o c : Dataset) :
    ("correlation" ∈ (staticPlots o c).map Prod.fst)
      ↔ 2 ≤ numericColCount c := by
  by_cases h2 : 2 ≤ numericColCount c <;>
    rcases Bool.eq_false_or_eq_true (hasMissing o) with hm | hm <;>
    simp [staticPlots, hm, h2, dist_key_ne_correlation, cat_key_ne_correlation]
  all_goals exact
    ⟨not_mem_take_map_keyed _ _ _ _ _ dist_key_ne_correlation,
     not_mem_take_map_keyed _ _ _ _ _ cat_key_ne_correlation⟩

theorem missing_mem_staticPlots (o c : Dataset)
    (h : "missing_data" ∈ (staticPlots o c).map Prod.fst) :
    hasMissing o = true := by
  by_cases h2 : 2 ≤ numericColCount c <;>
    rcases Bool.eq_false_or_eq_true (hasMissing o) with hm | hm <;>
    revert h <;>
    simp [staticPlots, hm, h2, dist_key_ne_missing_data, cat_key_ne_missing_data]
  all_goals exact
    ⟨not_mem_take_map_keyed _ _ _ _ _ dist_key_ne_missing_data,
     not_mem_take_map_keyed _ _ _ _ _ cat_key_ne_missing_data⟩

/-!  ## Claims C4 to C6 -/

/-- C4: in the AnalysisResult of analyze, the plots mapping carries the
`correlation` key exactly when the cleaned dataset has at least two numeric
columns, and carries the `missing_data` key only when the original dataset had
at least one missing value. -/
theorem plots_correlation_and_missing_keys (d : Dataset) (ai : Option AIBundle)
    (hr : d.rows.length ≠ 0) (hc : d.header.length ≠ 0) :
    ∃ r, analyze (some d) ai = Except.ok r ∧
      (("correlation" ∈ r.plots.map Prod.fst) ↔ 2 ≤ numericColCount (clean d)) ∧
      (("missing_data" ∈ r.plots.map Prod.fst) → hasMissing d = true) := by
  have hcond : ¬ (d.rows.length = 0 ∨ d.header.length = 0) := by
    simp [hr, hc]
  refine ⟨analyzeResult d ai, ?_, ?_, ?_⟩
  · rw [analyze]
    exact if_neg hcond
  · show ("correlation" ∈ ((staticPlots d (clean d)
        ++ (match ai with | none => [] | some b => aiPlots (clean d) b)).map Prod.fst))
      ↔ 2 ≤ numericColCount (clean d)
    rw [List.map_append]
    constructor
    · intro h
      rcases List.mem_append.mp h with h | h
      · exact (correlation_mem_staticPlots d (clean d)).mp h
      · exfalso
        cases ai with
        | none => simp at h
        | some b =>
            obtain ⟨t, ht⟩ := mem_aiPlots_keys h
            exact sanitizeAIKey_ne_correlation t ht.symm
    · intro h2
      exact List.mem_append.mpr
        (Or.inl ((correlation_mem_staticPlots d (clean d)).mpr h2))
  · show ("missing_data" ∈ ((staticPlots d (clean d)
        ++ (match ai with | none => [] | some b => aiPlots (clean d) b)).map Prod.fst))
      → hasMissing d = true
    rw [List.map_append]
    intro h
    rcases List.mem_append.mp h with h | h
    · exact missing_mem_staticPlots d (clean d) h
    · exfalso
      cases ai with
      | none => simp at h
      | some b =>
          obtain ⟨t, ht⟩ := mem_aiPlots_keys h
          exact sanitizeAIKey_ne_missing_data t ht.symm

unseal Rat.add Rat.sub Rat.mul Rat.inv in
theorem plots_correlation_and_missing_keys_witness :
    simpleDataset.rows.length ≠ 0 ∧ simpleDataset.header.length ≠ 0 ∧
    ∃ r, analyze (some simpleDataset) none = Except.ok r ∧
      (("correlation" ∈ r.plots.map Prod.fst)
        ↔ 2 ≤ numericColCount (clean simpleDataset)) ∧
      (("missing_data" ∈ r.plots.map Prod.fst) → hasMissing simpleDataset = true) :=
  ⟨by decide, by decide,
   plots_correlation_and_missing_keys simpleDataset none (by decide) (by decide)⟩

/-- The parse outcome of an unusable, empty dataset. -/
def emptyDataset : Dataset := ⟨[], []⟩

/-- C5: analyze errors exactly at ingestion: a failed parse raises
IngestionError, an empty dataset raises EmptyDatasetError, and every other
input yields an ok AnalysisResult — no other error class reaches the caller. -/
theorem analyze_error_policy (d : Dataset) (ai : Option AIBundle) :
    (analyze none ai
      = Except.error (AnalyzeError.ingestionError "unreadable or corrupt file")) ∧
    ((d.rows.length = 0 ∨ d.header.length = 0) →
      analyze (some d) ai
        = Except.error (AnalyzeError.emptyDatasetError
            "empty dataset: zero rows or zero columns")) ∧
    (d.rows.length ≠ 0 → d.header.length ≠ 0 →
      analyze (some d) ai = Except.ok (analyzeResult d ai)) := by
  refine ⟨rfl, ?_, ?_⟩
  · intro h
    rw [analyze]
    exact if_pos h
  · intro hr hc
    rw [analyze]
    exact if_neg (by simp [hr, hc])

theorem analyze_error_policy_witness :
    (analyze none none
      = Except.error (AnalyzeError.ingestionError "unreadable or corrupt file")) ∧
    (analyze (some emptyDataset) none
      = Except.error (AnalyzeError.emptyDatasetError
          "empty dataset: zero rows or zero columns")) ∧
    (analyze (some simpleDataset) none = Except.ok (analyzeResult simpleDataset none)) :=
  ⟨(analyze_error_policy emptyDataset none).1,
   (analyze_error_policy emptyDataset none).2.1 (by decide),
   (analyze_error_policy simpleDataset none).2.2 (by decide) (by decide)⟩

theorem cellAt_capStep (d : Dataset) (i j : ℕ) (hj : j < d.header.length) :
    cellAt (capStep d) i j = capCell d j (cellAt d i j) := by
  rw [cellAt, cellAt]
  rcases Nat.lt_or_ge i d.rows.length with hi | hi
  · have h1 : (capStep d).rows.getD i []
        = (List.range d.header.length).map
            (fun j2 => capCell d j2 ((d.rows.getD i []).getD j2 Cell.missing)) := by
      rw [capStep, mapCells]
      show (d.rows.map _).getD i [] = _
      rw [List.getD_eq_getElem _ _ (by simpa using hi), List.getElem_map,
        List.getD_eq_getElem d.rows [] hi]
    rw [h1, getD_map_range _ _ _ _ hj]
  · have h1 : (capStep d).rows.getD i [] = [] :=
      List.getD_eq_default _ _ (by rw [capStep, mapCells_rows_length]; exact hi)
    have h2 : d.rows.getD i [] = [] := List.getD_eq_default _ _ hi
    rw [h1, h2]
    rfl

/-- C6: the outlier-capping step preserves the row count and the header, every
cell of column `j` is exactly `capCell` of the old cell (numeric values clamped
to the IQR bounds), and any cell that is not numeric is left unchanged. -/
theorem capStep_frame (d : Dataset) :
    (capStep d).rows.length = d.rows.length ∧
    (capStep d).header = d.header ∧
    (∀ i j, j < d.header.length →
      cellAt (capStep d) i j = capCell d j (cellAt d i j)) ∧
    (∀ i j, j < d.header.length → (∀ q : ℚ, cellAt d i j ≠ Cell.num q) →
      cellAt (capStep d) i j = cellAt d i j) := by
  refine ⟨mapCells_rows_length d _, rfl, fun i j hj => cellAt_capStep d i j hj, ?_⟩
  intro i j hj hnq
  rw [cellAt_capStep d i j hj]
  cases hx : cellAt d i j with
  | num q => exact absurd hx (hnq q)
  | str s => rfl
  | missing => rfl

unseal Rat.add Rat.sub Rat.mul Rat.inv in
theorem capStep_frame_witness :
    ((0 : ℕ) < capDupDataset.header.length ∧ (∀ q : ℚ, cellAt capDupDataset 2 0 ≠ Cell.num q) = False) ∧
    cellAt (capStep capDupDataset) 0 0 = capCell capDupDataset 0 (cellAt capDupDataset 0 0) ∧
    (capStep capDupDataset).rows.length = capDupDataset.rows.length :=
  ⟨⟨by decide, by simp [cellAt, capDupDataset]⟩,
   (capStep_frame capDupDataset).2.2.1 0 0 (by decide),
   (capStep_frame capDupDataset).1⟩

/-!  ## Claims C7 to C10 -/

/-- C7: the upload progress indication is computed locally from the selected
file's size and the local random draws; two `handleSubmit` runs that differ
only in the backend's response produce the same progress and resolution
traces. -/
theorem progress_independent_of_backend (size : ℚ) (rand : ℕ → ℚ)
    (b1 b2 : Except AnalyzeError AnalysisResult) :
    (handleSubmitModel size rand b1).progress
      = (handleSubmitModel size rand b2).progress ∧
    (handleSubmitModel size rand b1).resolved
      = (handleSubmitModel size rand b2).resolved :=
  ⟨rfl, rfl⟩

theorem baseIncrement_nonneg {size : ℚ} (hs : 0 ≤ size) :
    0 ≤ baseIncrement size := by
  simp only [baseIncrement]
  have h1 : (0:ℚ) ≤ size / (1024 * 1024) := div_nonneg hs (by norm_num)
  have h2 : (0:ℚ) ≤ size / (1024 * 1024) / (1 / 10) * 1000 :=
    mul_nonneg (div_nonneg h1 (by norm_num)) (by norm_num)
  exact div_nonneg (by norm_num) (div_nonneg h2 (by norm_num))

theorem randomFactor_nonneg {r : ℚ} (h0 : 0 ≤ r) :
    0 ≤ randomFactor r := by
  rw [randomFactor]
  have : (r - 1 / 2) * (3 / 5) = 3 / 5 * r - 3 / 10 := by ring
  rw [this]
  linarith

theorem simulateProgress_le (size : ℚ) (rand : ℕ → ℚ) (n : ℕ) :
    (simulateProgress size rand n).1 ≤ 100 := by
  induction n with
  | zero => norm_num [simulateProgress]
  | succ n ih =>
      rw [simulateProgress]
      split
      · exact ih
      · split
        · norm_num
        · exact min_le_right _ _

/-- C9: the simulated progress value is monotonically non-decreasing, never
exceeds 100, and once it reaches 100 the next tick clears the interval and
resolves the promise. -/
theorem simulateProgress_monotone (size : ℚ) (rand : ℕ → ℚ)
    (hs : 0 ≤ size) (hr : ∀ n, 0 ≤ rand n ∧ rand n ≤ 1) (n : ℕ) :
    (simulateProgress size rand n).1 ≤ (simulateProgress size rand (n + 1)).1 ∧
    (simulateProgress size rand n).1 ≤ 100 ∧
    ((simulateProgress size rand n).1 = 100 →
      (simulateProgress size rand (n + 1)).2 = true) := by
  refine ⟨?_, simulateProgress_le size rand n, ?_⟩
  · conv_rhs => rw [simulateProgress]
    split
    · exact le_refl _
    · split
      · exact simulateProgress_le size rand n
      · apply le_min
        · have hinc : 0 ≤ baseIncrement size * randomFactor (rand n) :=
            mul_nonneg (baseIncrement_nonneg hs)
              (randomFactor_nonneg (hr n).1)
          linarith
        · exact simulateProgress_le size rand n
  · intro h100
    rw [simulateProgress]
    split
    · case isTrue h => exact h
    · split
      · rfl
      · case isFalse h =>
          exact absurd (le_of_eq h100.symm) h

theorem simulateProgress_monotone_witness :
    ((0:ℚ) ≤ 1048576 ∧ (∀ n : ℕ, 0 ≤ ((fun _ : ℕ => (1:ℚ)/2) n)
        ∧ ((fun _ : ℕ => (1:ℚ)/2) n) ≤ 1)) ∧
    ((simulateProgress 1048576 (fun _ => 1/2) 0).1
        ≤ (simulateProgress 1048576 (fun _ => 1/2) 1).1 ∧
     (simulateProgress 1048576 (fun _ => 1/2) 0).1 ≤ 100 ∧
     ((simulateProgress 1048576 (fun _ => 1/2) 0).1 = 100 →
       (simulateProgress 1048576 (fun _ => 1/2) 1).2 = true)) :=
  ⟨⟨by simp, fun n => ⟨one_half_pos.le, one_half_lt_one.le⟩⟩,
   simulateProgress_monotone 1048576 (fun _ => 1/2) (by simp)
     (fun n => ⟨one_half_pos.le, one_half_lt_one.le⟩) 0⟩

/-- C8: the frontend plot classification is total and structure-preserving —
`availablePlots` keeps exactly the keys of the plots mapping, in order, pairing
each with the one title and description `classifyPlot` assigns to it, the
known keys and prefixes getting their fixed texts and every other key the
AI-generated-visualization default. -/
theorem availablePlots_total (ks : List String) :
    ((availablePlots ks).map (fun e => e.1) = ks) ∧
    ((availablePlots ks).length = ks.length) ∧
    (∀ i, i < ks.length →
      (availablePlots ks).getD i ("", "", "")
        = (ks.getD i "", classifyPlot (ks.getD i ""))) ∧
    (classifyPlot "data_overview"
      = ("Data Overview", "Original vs cleaned data comparison")) ∧
    (classifyPlot "missing_data"
      = ("Missing Data Analysis", "Pattern of missing values")) ∧
    (∀ k, k ≠ "data_overview" → k ≠ "missing_data" →
      strStartsWith k "correlation" = true →
      classifyPlot k = ("Correlation Analysis", "Relationships between variables")) ∧
    (∀ k, k ≠ "data_overview" → k ≠ "missing_data" →
      strStartsWith k "correlation" = false → strStartsWith k "dist_" = true →
      classifyPlot k = ("Distribution: " ++ strDrop k 5,
        "Distribution analysis of " ++ strDrop k 5)) ∧
    (∀ k, k ≠ "data_overview" → k ≠ "missing_data" →
      strStartsWith k "correlation" = false → strStartsWith k "dist_" = false →
      strStartsWith k "cat_" = true →
      classifyPlot k = ("Categories: " ++ strDrop k 4,
        "Category analysis of " ++ strDrop k 4)) ∧
    (∀ k, k ≠ "data_overview" → k ≠ "missing_data" →
      strStartsWith k "correlation" = false → strStartsWith k "dist_" = false →
      strStartsWith k "cat_" = false → strStartsWith k "comparison_" = true →
      classifyPlot k = ("Data Comparison", "Comparative analysis")) ∧
    (∀ k, k ≠ "data_overview" → k ≠ "missing_data" →
      strStartsWith k "correlation" = false → strStartsWith k "dist_" = false →
      strStartsWith k "cat_" = false → strStartsWith k "comparison_" = false →
      (classifyPlot k).2 = "AI-generated visualization") := by
  refine ⟨?_, ?_, ?_, rfl, rfl, ?_, ?_, ?_, ?_, ?_⟩
  · rw [availablePlots, List.map_map]
    have hcomp : ((fun e : String × String × String => e.1)
        ∘ fun k => (k, classifyPlot k)) = fun k => k := funext fun k => rfl
    rw [hcomp]
    simp
  · simp [availablePlots]
  · intro i hi
    rw [availablePlots, getD_map_lt _ _ "" ("", "", "") hi]
  · intro k h1 h2 h3
    simp [classifyPlot, h1, h2, h3]
  · intro k h1 h2 h3 h4
    simp [classifyPlot, h1, h2, h3, h4]
  · intro k h1 h2 h3 h4 h5
    simp [classifyPlot, h1, h2, h3, h4, h5]
  · intro k h1 h2 h3 h4 h5 h6
    simp [classifyPlot, h1, h2, h3, h4, h5, h6]
  · intro k h1 h2 h3 h4 h5 h6
    simp [classifyPlot, h1, h2, h3, h4, h5, h6]

theorem availablePlots_total_witness :
    ((availablePlots ["data_overview", "dist_age", "my_ai_plot"]).map (fun e => e.1)
       = ["data_overview", "dist_age", "my_ai_plot"]) ∧
    ((0 : ℕ) < 3 ∧ (availablePlots ["data_overview", "dist_age", "my_ai_plot"]).getD 0 ("", "", "")
       = ("data_overview", classifyPlot "data_overview")) ∧
    ("my_ai_plot" ≠ "data_overview" ∧ strStartsWith "my_ai_plot" "comparison_" = false) ∧
    ((classifyPlot "my_ai_plot").2 = "AI-generated visualization") :=
  ⟨(availablePlots_total ["data_overview", "dist_age", "my_ai_plot"]).1,
   ⟨by decide, (availablePlots_total ["data_overview", "dist_age", "my_ai_plot"]).2.2.1 0
      (by decide)⟩,
   ⟨by decide, by decide⟩,
   (availablePlots_total []).2.2.2.2.2.2.2.2.2 "my_ai_plot" (by decide) (by decide)
     (by decide) (by decide) (by decide) (by decide)⟩

/-- C10: formatFileSize maps 0 to the (0, "Bytes") display pair; every integer
byte count from 1 to 1024^4 - 1 gets a defined unit, the entry of the sizes
array at index floor(log1024 bytes); and inputs below 1 byte or at or above
1024^4 compute an index outside the array, leaving the unit undefined. -/
theorem formatFileSize_spec :
    (formatFileSize 0 = (0, some "Bytes")) ∧
    (∀ n : ℕ, 1 ≤ n → n < 1024 ^ 4 →
      (formatFileSize (n : ℚ)).2 = sizesUnits[Nat.log 1024 n]? ∧
      ∃ u, (formatFileSize (n : ℚ)).2 = some u) ∧
    (∀ q : ℚ, 0 < q → q < 1 → (formatFileSize q).2 = none) ∧
    (∀ q : ℚ, (1024 : ℚ) ^ (4 : ℕ) ≤ q → (formatFileSize q).2 = none) := by
  refine ⟨rfl, ?_, ?_, ?_⟩
  · intro n h1 h4
    have hne : (n : ℚ) ≠ 0 := Nat.cast_ne_zero.mpr (by omega)
    have hone : (1 : ℚ) ≤ (n : ℚ) := by exact_mod_cast h1
    have hflog : floorLog1024 (n : ℚ) = (Nat.log 1024 n : ℤ) := by
      rw [floorLog1024, if_pos hone, Int.floor_natCast, Int.toNat_natCast]
    have hnneg : ¬ floorLog1024 (n : ℚ) < 0 := by
      rw [hflog]
      exact not_lt.mpr (Int.natCast_nonneg _)
    have htn : Int.toNat (floorLog1024 (n : ℚ)) = Nat.log 1024 n := by
      rw [hflog, Int.toNat_natCast]
    have hu : (formatFileSize (n : ℚ)).2 = sizesUnits[Nat.log 1024 n]? := by
      rw [formatFileSize, if_neg hne]
      show (if floorLog1024 (n : ℚ) < 0 then none
        else sizesUnits[Int.toNat (floorLog1024 (n : ℚ))]?) = _
      rw [if_neg hnneg, htn]
    have hlt : Nat.log 1024 n < sizesUnits.length := by
      have h5 : Nat.log 1024 n < 4 := Nat.log_lt_of_lt_pow (by omega) h4
      simpa [sizesUnits] using h5
    refine ⟨hu, ?_⟩
    rw [hu]
    exact ⟨_, List.getElem?_eq_getElem hlt⟩
  · intro q h0 h1
    have hne : q ≠ 0 := ne_of_gt h0
    have hnotone : ¬ (1 : ℚ) ≤ q := not_le.mpr h1
    have hinv : (1 : ℚ) < q⁻¹ := one_lt_inv_iff₀.mpr ⟨h0, h1⟩
    have hceil : (1 : ℤ) < ⌈q⁻¹⌉ := Int.lt_ceil.mpr (by exact_mod_cast hinv)
    have h2 : 2 ≤ Int.toNat ⌈q⁻¹⌉ := by omega
    have hclog : 0 < Nat.clog 1024 (Int.toNat ⌈q⁻¹⌉) :=
      Nat.clog_pos (by norm_num) h2
    have hneg : floorLog1024 q < 0 := by
      rw [floorLog1024, if_neg hnotone]
      simp only [Left.neg_neg_iff]
      exact_mod_cast hclog
    rw [formatFileSize, if_neg hne]
    show (if floorLog1024 q < 0 then none
      else sizesUnits[Int.toNat (floorLog1024 q)]?) = none
    rw [if_pos hneg]
  · intro q hq
    have hone : (1 : ℚ) ≤ q := le_trans (by norm_num) hq
    have hne : q ≠ 0 := by
      intro h
      rw [h] at hone
      norm_num at hone
    have hfl : (1024 ^ 4 : ℤ) ≤ ⌊q⌋ := Int.le_floor.mpr (by push_cast; exact hq)
    have hpow : 1024 ^ 4 ≤ Int.toNat ⌊q⌋ := by
      have h4 : ((1024 : ℤ)) ^ 4 = 1099511627776 := by norm_num
      have h5 : (1024 : ℕ) ^ 4 = 1099511627776 := by norm_num
      omega
    have hlogge : 4 ≤ Nat.log 1024 (Int.toNat ⌊q⌋) :=
      (Nat.pow_le_iff_le_log (by norm_num) (by omega)).mp hpow
    have hflog : floorLog1024 q = (Nat.log 1024 (Int.toNat ⌊q⌋) : ℤ) := by
      rw [floorLog1024, if_pos hone]
    rw [formatFileSize, if_neg hne]
    show (if floorLog1024 q < 0 then none
      else sizesUnits[Int.toNat (floorLog1024 q)]?) = none
    rw [if_neg (by rw [hflog]; exact not_lt.mpr (Int.natCast_nonneg _))]
    apply List.getElem?_eq_none
    show sizesUnits.length ≤ _
    rw [hflog, Int.toNat_natCast]
    calc sizesUnits.length = 4 := by rfl
      _ ≤ Nat.log 1024 (Int.toNat ⌊q⌋) := hlogge

theorem formatFileSize_spec_witness :
    ((1 : ℕ) ≤ 2048 ∧ 2048 < 1024 ^ 4) ∧
    ((formatFileSize ((2048 : ℕ) : ℚ)).2 = sizesUnits[Nat.log 1024 2048]? ∧
      ∃ u, (formatFileSize ((2048 : ℕ) : ℚ)).2 = some u) ∧
    ((0 : ℚ) < 1 / 2 ∧ (1 / 2 : ℚ) < 1) ∧
    ((formatFileSize (1 / 2 : ℚ)).2 = none) ∧
    ((formatFileSize ((1024 : ℚ) ^ (4 : ℕ))).2 = none) :=
  ⟨⟨by decide, by decide⟩,
   formatFileSize_spec.2.1 2048 (by decide) (by decide),
   ⟨one_half_pos, one_half_lt_one⟩,
   formatFileSize_spec.2.2.1 (1 / 2) one_half_pos one_half_lt_one,
   formatFileSize_spec.2.2.2 ((1024 : ℚ) ^ (4 : ℕ)) (le_refl _)⟩

end EDA
